import Mathlib

/-!
Verification of the QuakeOats rendering core against its specification.

The development shallowly embeds the components of the repository that the
checked claims are about:

* work_queue (src/src/thread_utils.hpp): a mutex-protected deque with
  enqueue at the back, dequeue from the front and try_steal from the back.
  Under the sequential access patterns of the claims the mutex is
  irrelevant, so the queue is embedded as a plain list whose head is the
  front of the deque.
* thread_pool (src/src/thread_utils.hpp): per-worker local and external
  task queues, a routing function for submit_task, and a small event
  semantics for submissions and worker execution steps.
* Sampler (src/src/gfx.cc): coordinate mapping, clamping and the four
  texel reads of Sampler::at, over exact rationals in place of IEEE
  doubles (all claim-relevant computations here are exact).
* Raster (src/src/gfx.cc): darea, bissect, dispatch and the scan
  conversion loop of rasterize, parameterized over the user-installed
  callbacks exactly as the C++ template is.
-/

namespace QuakeOats

/-! ## work_queue (src/src/thread_utils.hpp, lines 17-84)

The deque q is a list whose head is the front.  enqueue locks, does
q.push_back(t) and notifies; the lock is irrelevant for the sequential
claims, so enqueue is list append at the back. -/

/-- Embedding of work_queue::enqueue: push_back of the value. -/
def enqueue {T : Type} (q : List T) (t : T) : List T :=
  q ++ [t]

/-- Embedding of the (blocking) work_queue::dequeue: waits while the queue
is empty, then pops the front.  The blocked case is the none branch. -/
def dequeue {T : Type} (q : List T) : Option (T × List T) :=
  match q with
  | [] => none
  | a :: r => some (a, r)

/-- Embedding of work_queue::try_dequeue: on an empty deque it returns
false and leaves the reference argument untouched; otherwise it moves the
front element into the reference, pops it and returns true.  The result
triple is (return value, deque afterwards, reference afterwards). -/
def tryDequeue {T : Type} (q : List T) (ref : T) : Bool × List T × T :=
  match q with
  | [] => (false, q, ref)
  | a :: r => (true, r, a)

/-- Embedding of work_queue::try_steal: same as tryDequeue except that it
takes q.back() and pops the back of the deque. -/
def trySteal {T : Type} (q : List T) (ref : T) : Bool × List T × T :=
  match q.getLast? with
  | none => (false, q, ref)
  | some a => (true, q.dropLast, a)

/-- N blocking dequeues in a row: returns the list of dequeued values in
order together with the remaining deque.  A dequeue of an empty deque
blocks forever; that case never arises in the claims and is modelled by
stopping. -/
def dequeueN {T : Type} : List T → Nat → List T × List T
  | q, 0 => ([], q)
  | [], _ + 1 => ([], [])
  | a :: r, n + 1 =>
    let rest := dequeueN r n
    (a :: rest.1, rest.2)

/-- N steals in a row: returns the list of stolen values in order together
with the remaining deque. -/
def stealN {T : Type} : List T → Nat → List T × List T
  | q, 0 => ([], q)
  | q, n + 1 =>
    match q.getLast? with
    | none => ([], [])
    | some a =>
      let rest := stealN q.dropLast n
      (a :: rest.1, rest.2)

theorem foldl_enqueue_eq_append {T : Type} (q : List T) (xs : List T) :
    List.foldl enqueue q xs = q ++ xs := by
  induction xs generalizing q with
  | nil => simp
  | cons a xs ih => simp [enqueue, ih]

theorem dequeueN_length {T : Type} (xs : List T) :
    dequeueN xs xs.length = (xs, []) := by
  induction xs with
  | nil => rfl
  | cons a xs ih => simp [dequeueN, ih]

theorem stealN_length {T : Type} (xs : List T) :
    stealN xs xs.length = (xs.reverse, []) := by
  induction xs using List.reverseRecOn with
  | nil => rfl
  | append_singleton xs a ih =>
    have hlen : (xs ++ [a]).length = xs.length + 1 := by simp
    rw [hlen]
    simp [stealN, ih]

/-- C9: after enqueueing the values xs into an initially empty work_queue,
the deque holds exactly xs in order; xs.length dequeues return exactly xs
in FIFO order and leave the queue empty; xs.length steals instead return
the values in reverse order (try_steal removes from the back). -/
theorem C9_work_queue_fifo_and_steal {T : Type} (xs : List T) :
    List.foldl enqueue ([] : List T) xs = xs ∧
    dequeueN (List.foldl enqueue ([] : List T) xs) xs.length = (xs, []) ∧
    stealN (List.foldl enqueue ([] : List T) xs) xs.length = (xs.reverse, []) := by
  have h := foldl_enqueue_eq_append ([] : List T) xs
  simp only [List.nil_append] at h
  exact ⟨h, by rw [h]; exact dequeueN_length xs, by rw [h]; exact stealN_length xs⟩

/-- C10: try_dequeue and try_steal on an empty queue return false and leave
the queue and the reference unchanged; on a non-empty queue they return
true and remove exactly the front (respectively the back) element into the
reference. -/
theorem C10_try_dequeue_try_steal {T : Type} (r a : T) (q : List T) :
    tryDequeue ([] : List T) r = (false, [], r) ∧
    trySteal ([] : List T) r = (false, [], r) ∧
    tryDequeue (a :: q) r = (true, q, a) ∧
    trySteal (q ++ [a]) r = (true, q, a) := by
  refine ⟨rfl, rfl, rfl, ?_⟩
  simp [trySteal]

/-! ## thread_pool (src/src/thread_utils.hpp, lines 102-278)

Each thread_pool_worker owns a strictly local std::deque (local_tasks,
pushed at the back by queue_local_task and popped at the front by
get_next_task, both only ever executed by the owning thread) and a
mutex-protected external work_queue.  get_next_task prefers the local
deque and otherwise blocks on the external queue; no code path pops
another worker's local deque (the stealing hooks are absent).

Tasks are identified by natural numbers.  The pool state keeps, per
worker, the local queue, the external queue and a global log of
(worker, task) execution events. -/

/-- State of the pool with n workers: local queues, external queues and
the execution log (worker id paired with the task it picked up). -/
structure PoolSt (n : Nat) where
  locQ : Fin n → List Nat
  extQ : Fin n → List Nat
  log : List (Fin n × Nat)

/-- Events of the pool semantics: a local submission by worker k (the
allow_local branch of submit_task taken on worker k), an external
submission onto worker k's external queue (submit_task_for or the
round-robin branch), and one iteration of worker k's run loop. -/
inductive PoolEv (n : Nat) where
  | subLoc (k : Fin n) (t : Nat)
  | subExt (k : Fin n) (t : Nat)
  | runStep (k : Fin n)
  deriving DecidableEq

/-- Pointwise queue update helper. -/
def updQ {n : Nat} (f : Fin n → List Nat) (k : Fin n) (l : List Nat) :
    Fin n → List Nat :=
  fun j => if j = k then l else f j

/-- One step of the pool semantics.

subLoc k t: queue_local_task pushes t at the back of worker k's local
deque.  subExt k t: enqueue on worker k's external work_queue.
runStep k: worker k executes get_next_task: pop the front of the local
deque if non-empty, else pop the front of the external queue (a blocked
dequeue on two empty queues is a no-op here), and run the task, which is
recorded in the log as (k, task). -/
def stepEv {n : Nat} (s : PoolSt n) : PoolEv n → PoolSt n
  | .subLoc k t => { s with locQ := updQ s.locQ k (s.locQ k ++ [t]) }
  | .subExt k t => { s with extQ := updQ s.extQ k (s.extQ k ++ [t]) }
  | .runStep k =>
    match s.locQ k with
    | t :: rest => { s with locQ := updQ s.locQ k rest, log := s.log ++ [(k, t)] }
    | [] =>
      match s.extQ k with
      | t :: rest => { s with extQ := updQ s.extQ k rest, log := s.log ++ [(k, t)] }
      | [] => s

/-- Run a sequence of pool events from a state. -/
def runEvs {n : Nat} (s : PoolSt n) (evs : List (PoolEv n)) : PoolSt n :=
  List.foldl stepEv s evs

/-- The freshly constructed pool: all queues empty, nothing executed. -/
def poolStart (n : Nat) : PoolSt n :=
  { locQ := fun _ => [], extQ := fun _ => [], log := [] }

/-- Embedding of thread_pool::submit_task routing (lines 227-238): when
allow_local is set and current_tid() reports that the caller is pool
worker k, the task goes to worker k's local queue via queue_local_task;
otherwise it is submitted externally to the round-robin worker rr. -/
def submitRoute {n : Nat} (caller : Option (Fin n)) (allowLocal : Bool)
    (rr : Fin n) (t : Nat) : PoolEv n :=
  if allowLocal then
    match caller with
    | some k => .subLoc k t
    | none => .subExt rr t
  else .subExt rr t

/-- Invariant used for C8: the task t sits only in worker k's local queue,
never in an external queue, and was only ever executed by worker k. -/
def LocalOnly {n : Nat} (k : Fin n) (t : Nat) (s : PoolSt n) : Prop :=
  (∀ j : Fin n, t ∈ s.locQ j → j = k) ∧
  (∀ j : Fin n, t ∉ s.extQ j) ∧
  (∀ j : Fin n, (j, t) ∈ s.log → j = k)

theorem stepEv_localOnly {n : Nat} {k : Fin n} {t : Nat} {s : PoolSt n}
    (hs : LocalOnly k t s) (e : PoolEv n)
    (hloc : ∀ j, e = PoolEv.subLoc j t → j = k)
    (hext : ∀ j, e ≠ PoolEv.subExt j t) :
    LocalOnly k t (stepEv s e) := by
  obtain ⟨hL, hE, hG⟩ := hs
  cases e with
  | subLoc j u =>
    refine ⟨?_, hE, hG⟩
    intro i hi
    simp only [stepEv, updQ] at hi
    by_cases hij : i = j
    · subst hij
      rw [if_pos rfl] at hi
      rcases List.mem_append.mp hi with hi | hi
      · exact hL i hi
      · have htu : t = u := List.mem_singleton.mp hi
        exact hloc i (by rw [htu])
    · rw [if_neg hij] at hi
      exact hL i hi
  | subExt j u =>
    refine ⟨hL, ?_, hG⟩
    intro i hi
    simp only [stepEv, updQ] at hi
    by_cases hij : i = j
    · subst hij
      rw [if_pos rfl] at hi
      rcases List.mem_append.mp hi with hi | hi
      · exact hE i hi
      · have htu : t = u := List.mem_singleton.mp hi
        exact hext i (by rw [htu])
    · rw [if_neg hij] at hi
      exact hE i hi
  | runStep j =>
    simp only [stepEv]
    cases hq : s.locQ j with
    | cons u rest =>
      refine ⟨?_, hE, ?_⟩
      · intro i hi
        simp only [updQ] at hi
        by_cases hij : i = j
        · subst hij
          rw [if_pos rfl] at hi
          exact hL i (by rw [hq]; exact List.mem_cons_of_mem u hi)
        · rw [if_neg hij] at hi
          exact hL i hi
      · intro i hi
        rcases List.mem_append.mp hi with hi | hi
        · exact hG i hi
        · have hpair : (i, t) = (j, u) := List.mem_singleton.mp hi
          have hij : i = j := congrArg Prod.fst hpair
          have htu : t = u := congrArg Prod.snd hpair
          refine hij.trans (hL j ?_)
          rw [hq, htu]
          exact List.mem_cons_self u rest
    | nil =>
      cases hq2 : s.extQ j with
      | cons u rest =>
        refine ⟨hL, ?_, ?_⟩
        · intro i hi
          simp only [updQ] at hi
          by_cases hij : i = j
          · subst hij
            rw [if_pos rfl] at hi
            exact hE i (by rw [hq2]; exact List.mem_cons_of_mem u hi)
          · rw [if_neg hij] at hi
            exact hE i hi
        · intro i hi
          rcases List.mem_append.mp hi with hi | hi
          · exact hG i hi
          · have hpair : (i, t) = (j, u) := List.mem_singleton.mp hi
            have htu : t = u := congrArg Prod.snd hpair
            refine absurd ?_ (hE j)
            rw [hq2, htu]
            exact List.mem_cons_self u rest
      | nil =>
        exact ⟨hL, hE, hG⟩

theorem runEvs_localOnly {n : Nat} {k : Fin n} {t : Nat}
    (evs : List (PoolEv n)) (s : PoolSt n) (hs : LocalOnly k t s)
    (hloc : ∀ j, PoolEv.subLoc j t ∈ evs → j = k)
    (hext : ∀ j, PoolEv.subExt j t ∉ evs) :
    LocalOnly k t (runEvs s evs) := by
  induction evs generalizing s with
  | nil => exact hs
  | cons e evs ih =>
    refine ih (stepEv s e)
      (stepEv_localOnly hs e
        (fun j hj => hloc j (by rw [hj]; exact List.mem_cons_self _ _))
        (fun j hj => hext j (by rw [← hj]; exact List.mem_cons_self _ _)))
      (fun j hj => hloc j (List.mem_cons_of_mem e hj))
      (fun j hj => hext j (List.mem_cons_of_mem e hj))

/-- C8: submit_task with allow_local=true called on pool worker k routes
the task to worker k's strictly local queue (first conjunct), and in any
execution of the pool in which task t is only ever submitted that way
(never submitted externally, and locally only by worker k), every
execution of t in the log happened on worker k: the local deque is popped
only by its owner and cannot be stolen. -/
theorem C8_local_submission_runs_on_submitter {n : Nat} (k rr : Fin n)
    (t : Nat) (evs : List (PoolEv n))
    (hloc : ∀ j, PoolEv.subLoc j t ∈ evs → j = k)
    (hext : ∀ j, PoolEv.subExt j t ∉ evs) :
    submitRoute (some k) true rr t = PoolEv.subLoc k t ∧
    ∀ j, (j, t) ∈ (runEvs (poolStart n) evs).log → j = k := by
  refine ⟨rfl, ?_⟩
  have hinit : LocalOnly k t (poolStart n) := by
    refine ⟨?_, ?_, ?_⟩ <;> intro j h <;> simp [poolStart] at h
  exact (runEvs_localOnly evs (poolStart n) hinit hloc hext).2.2

/-- Closed witness for C8: a pool of two workers in which task 7 is
submitted locally by worker 0 and both workers take execution steps; the
log records task 7 as executed by worker 0. -/
theorem C8_local_submission_runs_on_submitter_witness :
    (∀ j : Fin 2, PoolEv.subLoc j 7 ∈
      [PoolEv.subLoc (0 : Fin 2) 7, PoolEv.subExt 1 9, PoolEv.runStep 1,
        PoolEv.runStep 0] → j = 0) ∧
    submitRoute (some (0 : Fin 2)) true 1 7 = PoolEv.subLoc 0 7 ∧
    ∀ j : Fin 2, (j, 7) ∈ (runEvs (poolStart 2)
      [PoolEv.subLoc (0 : Fin 2) 7, PoolEv.subExt 1 9, PoolEv.runStep 1,
        PoolEv.runStep 0]).log → j = 0 := by
  have h := C8_local_submission_runs_on_submitter (n := 2) 0 1 7
    [PoolEv.subLoc (0 : Fin 2) 7, PoolEv.subExt 1 9, PoolEv.runStep 1,
      PoolEv.runStep 0] (by decide) (by decide)
  exact ⟨by decide, h.1, h.2⟩

/-! ## Sampler (src/src/gfx.cc, lines 295-327)

Sampler::at(x, y) is embedded over exact rationals.  The body is, line by
line (the let-shadowing below mirrors the C++ reassignments):

    x = x * width;  y = y * height;
    y = height - 1;                      (reassigns y, making the previous
                                          line dead)
    x = clamp(x, 0, width - 1);
    y = clamp(x, 0, height - 1);         (note: clamps the new x, not y)
    t00 = at(floor x, ceil y);  t01 = at(floor x, floor y);
    t10 = at(ceil x,  ceil y);  t11 = at(ceil x,  floor y);
    a = x - floor x;  b = y - floor y;
    s0 = slope(t01, t00);  s1 = slope(t11, t10);
    u0 = s0.at(b);  u1 = s1.at(b);       (two applications at fractional y)
    s2 = slope(u0, u1);  return s2.at(a) (one application at fractional x)

std::clamp(v, lo, hi) with lo <= hi is max lo (min v hi). -/

/-- The plane coordinates Sampler::at derives from its input, after the
mapping, the dead reassignment of y and the two clamps, exactly as in the
source (the second clamp reads the already clamped x). -/
def sampCoords (W H : Nat) (u v : ℚ) : ℚ × ℚ :=
  let x : ℚ := u * W
  let y : ℚ := v * H
  let y : ℚ := (H : ℚ) - 1
  let x : ℚ := max 0 (min x ((W : ℚ) - 1))
  let y : ℚ := max 0 (min x ((H : ℚ) - 1))
  (x, y)

/-- The four texel coordinates Sampler::at reads, in source order
t00, t01, t10, t11: the floor and ceiling combinations of the final x and
y, converted to the unsigned plane indices of Plane::at. -/
def sampReadCoords (W H : Nat) (u v : ℚ) : List (Nat × Nat) :=
  let c := sampCoords W H u v
  [(⌊c.1⌋.toNat, ⌈c.2⌉.toNat),
   (⌊c.1⌋.toNat, ⌊c.2⌋.toNat),
   (⌈c.1⌉.toNat, ⌈c.2⌉.toNat),
   (⌈c.1⌉.toNat, ⌊c.2⌋.toNat)]

/-- Embedding of Sampler::at: plane is the sampled Plane, slope the
user-supplied slope generation function (slope a b applied to a parameter
is slope(a, b).at(t)).  The four reads and the three slope applications
follow the source lines 309-325. -/
def sampAt {T : Type} (W H : Nat) (plane : Nat → Nat → T)
    (slope : T → T → ℚ → T) (u v : ℚ) : T :=
  let c := sampCoords W H u v
  let x := c.1
  let y := c.2
  let t00 := plane ⌊x⌋.toNat ⌈y⌉.toNat
  let t01 := plane ⌊x⌋.toNat ⌊y⌋.toNat
  let t10 := plane ⌈x⌉.toNat ⌈y⌉.toNat
  let t11 := plane ⌈x⌉.toNat ⌊y⌋.toNat
  let a := x - ⌊x⌋
  let b := y - ⌊y⌋
  let u0 := slope t01 t00 b
  let u1 := slope t11 t10 b
  slope u0 u1 a

/-- The sampling behavior the specification describes for Sampler::at
(claim C3), written from the words of the spec for comparison with sampAt:
map u, v to plane coordinates u*W and v*H, clamp BOTH coordinates into
[0, W-1] x [0, H-1], read the four integer-neighbor texels, then two slope
applications at the fractional y followed by one at the fractional x. -/
def sampAtSpec {T : Type} (W H : Nat) (plane : Nat → Nat → T)
    (slope : T → T → ℚ → T) (u v : ℚ) : T :=
  let x : ℚ := max 0 (min (u * W) ((W : ℚ) - 1))
  let y : ℚ := max 0 (min (v * H) ((H : ℚ) - 1))
  let t00 := plane ⌊x⌋.toNat ⌈y⌉.toNat
  let t01 := plane ⌊x⌋.toNat ⌊y⌋.toNat
  let t10 := plane ⌈x⌉.toNat ⌈y⌉.toNat
  let t11 := plane ⌈x⌉.toNat ⌊y⌋.toNat
  let a := x - ⌊x⌋
  let b := y - ⌊y⌋
  let u0 := slope t01 t00 b
  let u1 := slope t11 t10 b
  slope u0 u1 a

/-- Concrete 2 by 2 test plane: the texel at (p, q) holds the rational
p + 2 * q, so the two rows differ. -/
def plane22 (p q : Nat) : ℚ :=
  (p : ℚ) + 2 * q

/-- Linear interpolation between two rationals, the shape of the slopes
the game installs (PixelRgba32Slope::at uses (1 - t) * a + t * b per
channel). -/
def linQ (a b : ℚ) (t : ℚ) : ℚ :=
  (1 - t) * a + t * b

/-- C3 (code_bug evaluation): at u = 0, v = 1 on the 2 by 2 plane the code
returns the row 0 texel 0, because the final y coordinate is computed from
the clamped x rather than from v, while the behavior the claim describes
reads around row 1 and returns 2. -/
theorem C3_sampler_ignores_v :
    sampAt 2 2 plane22 linQ 0 1 = 0 ∧
    sampAtSpec 2 2 plane22 linQ 0 1 = 2 ∧
    sampCoords 2 2 0 1 = (0, 0) := by
  have hc : sampCoords 2 2 0 1 = (0, 0) := by
    norm_num [sampCoords, min_def, max_def]
  refine ⟨?_, ?_, hc⟩
  · simp only [sampAt, hc]
    norm_num [plane22, linQ]
  · simp only [sampAtSpec]
    norm_num [min_def, max_def, plane22, linQ]

theorem sampCoords_mem_range (W H : Nat) (u v : ℚ) (hW : 1 ≤ W)
    (hH : 1 ≤ H) :
    0 ≤ (sampCoords W H u v).1 ∧ (sampCoords W H u v).1 ≤ (W : ℚ) - 1 ∧
    0 ≤ (sampCoords W H u v).2 ∧ (sampCoords W H u v).2 ≤ (H : ℚ) - 1 := by
  have hW1 : (0 : ℚ) ≤ (W : ℚ) - 1 := by
    have : (1 : ℚ) ≤ (W : ℚ) := by exact_mod_cast hW
    linarith
  have hH1 : (0 : ℚ) ≤ (H : ℚ) - 1 := by
    have : (1 : ℚ) ≤ (H : ℚ) := by exact_mod_cast hH
    linarith
  simp only [sampCoords]
  refine ⟨le_max_left _ _, ?_, le_max_left _ _, ?_⟩
  · exact max_le hW1 (min_le_right _ _)
  · exact max_le hH1 (min_le_right _ _)

theorem floor_ceil_toNat_bounds {q : ℚ} {n : Nat} (h0 : 0 ≤ q)
    (h1 : q ≤ (n : ℚ) - 1) (hn : 1 ≤ n) :
    ⌊q⌋.toNat < n ∧ ⌈q⌉.toNat < n := by
  have hceil : ⌈q⌉ ≤ (n : Int) - 1 := by
    apply Int.ceil_le.mpr
    push_cast
    exact h1
  have hfloor : ⌊q⌋ ≤ ⌈q⌉ := Int.floor_le_ceil q
  have hc : ⌈q⌉.toNat < n := by
    omega
  have hf : ⌊q⌋.toNat < n := by
    omega
  exact ⟨hf, hc⟩

/-- C6: for every plane extent W, H with W >= 1 and H >= 1 and every
rational input u, v (arbitrary, not just in [0, 1]), each of the four
texel reads of Sampler::at lands inside [0, W-1] x [0, H-1], and the
sample only depends on plane values at those coordinates: two planes that
agree there give the same sample, so Sampler::at never reads outside the
plane and Plane::at never raises OutOfRange for it. -/
theorem C6_sampler_reads_in_bounds {T : Type} (W H : Nat)
    (pl pl' : Nat → Nat → T) (slope : T → T → ℚ → T) (u v : ℚ)
    (hW : 1 ≤ W) (hH : 1 ≤ H)
    (hagree : ∀ pq ∈ sampReadCoords W H u v, pl pq.1 pq.2 = pl' pq.1 pq.2) :
    (∀ pq ∈ sampReadCoords W H u v, pq.1 < W ∧ pq.2 < H) ∧
    sampAt W H pl slope u v = sampAt W H pl' slope u v := by
  obtain ⟨hx0, hx1, hy0, hy1⟩ := sampCoords_mem_range W H u v hW hH
  obtain ⟨hfx, hcx⟩ := floor_ceil_toNat_bounds hx0 hx1 hW
  obtain ⟨hfy, hcy⟩ := floor_ceil_toNat_bounds hy0 hy1 hH
  constructor
  · intro pq hpq
    simp only [sampReadCoords, List.mem_cons, List.mem_singleton,
      List.not_mem_nil, or_false] at hpq
    rcases hpq with h | h | h | h <;> subst h <;>
      exact ⟨by assumption, by assumption⟩
  · have h00 := hagree ((⌊(sampCoords W H u v).1⌋.toNat,
      ⌈(sampCoords W H u v).2⌉.toNat)) (by simp [sampReadCoords])
    have h01 := hagree ((⌊(sampCoords W H u v).1⌋.toNat,
      ⌊(sampCoords W H u v).2⌋.toNat)) (by simp [sampReadCoords])
    have h10 := hagree ((⌈(sampCoords W H u v).1⌉.toNat,
      ⌈(sampCoords W H u v).2⌉.toNat)) (by simp [sampReadCoords])
    have h11 := hagree ((⌈(sampCoords W H u v).1⌉.toNat,
      ⌊(sampCoords W H u v).2⌋.toNat)) (by simp [sampReadCoords])
    simp only [sampReadCoords] at h00 h01 h10 h11
    simp only [sampAt, h00, h01, h10, h11]

/-- Closed witness for C6 at W = H = 2 with inputs far outside [0, 1]:
u = 7, v = -3, one plane extended with junk values outside the extent. -/
theorem C6_sampler_reads_in_bounds_witness :
    (∀ pq ∈ sampReadCoords 2 2 7 (-3), pq.1 < 2 ∧ pq.2 < 2) ∧
    sampAt 2 2 plane22 linQ 7 (-3) =
      sampAt 2 2 (fun p q => if p < 2 ∧ q < 2 then plane22 p q else 99)
        linQ 7 (-3) := by
  refine C6_sampler_reads_in_bounds 2 2 plane22
    (fun p q => if p < 2 ∧ q < 2 then plane22 p q else 99) linQ 7 (-3)
    (by norm_num) (by norm_num) ?_
  intro pq hpq
  have hc : sampCoords 2 2 7 (-3) = (1, 1) := by
    norm_num [sampCoords, min_def, max_def]
  simp only [sampReadCoords, hc] at hpq
  norm_num at hpq
  simp [hpq]

/-! ## Raster: darea, bissect, dispatch (src/src/gfx.cc, lines 511-663)

Raster is a C++ template over a point type P and a slope type S, with the
user-installed callbacks stored as std::function fields.  The embedding
takes P as a type parameter and the claim-relevant callbacks as function
parameters: screen is P to (int, int) and slope a b t is slope(a, b).at(t).
Screen coordinates are embedded as mathematical integers; the claims are
settled on inputs far below the int32 range, where the C++ int32
arithmetic agrees. -/

/-- The Triangle point bundle of Raster (gfx.cc lines 395-400). -/
structure Tri (P : Type) where
  point0 : P
  point1 : P
  point2 : P
  deriving DecidableEq

/-- Embedding of Raster::darea (lines 511-523): the bounding box of the
three screen-space vertices; width and height are computed in uint32 (in
range for all inputs used here) and the product is a uint32 multiply, so
it is reduced modulo 2^32 before the widening to uint64. -/
def darea {P : Type} (screen : P → Int × Int) (t : Tri P) : Nat :=
  let s0 := screen t.point0
  let s1 := screen t.point1
  let s2 := screen t.point2
  let width := (max s0.1 (max s1.1 s2.1) - min s0.1 (min s1.1 s2.1)).toNat
  let height := (max s0.2 (max s1.2 s2.2) - min s0.2 (min s1.2 s2.2)).toNat
  width * height % 2 ^ 32

/-- Embedding of the make lambda inside Raster::bissect (lines 532-546):
split the side p0 p1 at the midpoint obtained from the user slope at 0.5,
produce the two child triangles and return them with the maximum of their
darea values. -/
def bmake {P : Type} (slope : P → P → ℚ → P) (screen : P → Int × Int)
    (p0 p1 p2 : P) : Tri P × Tri P × Nat :=
  let middle := slope p0 p1 (1 / 2)
  let t0 : Tri P := ⟨p0, middle, p2⟩
  let t1 : Tri P := ⟨middle, p1, p2⟩
  (t0, t1, max (darea screen t0) (darea screen t1))

/-- Embedding of Raster::bissect (lines 527-566): try the three side
splits in source order; each comparison (area > max) replaces the kept
pair when the new split has a LARGER maximum child area, so the function
returns the split whose larger child bounding box is largest. -/
def bissect {P : Type} (slope : P → P → ℚ → P) (screen : P → Int × Int)
    (s : Tri P) : Tri P × Tri P :=
  let m0 := bmake slope screen s.point0 s.point1 s.point2
  let m1 := bmake slope screen s.point1 s.point2 s.point0
  let a0 := if m0.2.2 < m1.2.2 then m1 else m0
  let m2 := bmake slope screen s.point2 s.point0 s.point1
  let a1 := if a0.2.2 < m2.2.2 then m2 else a0
  (a1.1, a1.2.1)

/-- Embedding of Raster::dispatch (lines 627-663), with fuel for the
recursion; the result is the list of triangles submitted to the pool as
clip_rasterize tasks, in submission order.  The threshold is
TESSEL_AREA_THRESHOLD = 1024 * 64 = 65536.  When the bounding box area
exceeds the threshold and the bisection passes the
sum-of-children-not-larger-than-parent check, dispatch recurses on both
children and then FALLS THROUGH: the source has no return statement, so
the parent is submitted as well. -/
def dispatchList {P : Type} (slope : P → P → ℚ → P)
    (screen : P → Int × Int) : Nat → Tri P → List (Tri P)
  | 0, _ => []
  | n + 1, t =>
    let area := darea screen t
    (if 65536 < area then
      let b := bissect slope screen t
      if darea screen b.1 + darea screen b.2 ≤ area then
        dispatchList slope screen n b.1 ++ dispatchList slope screen n b.2
      else []
    else []) ++ [t]

/-- Screen-mapping callback used for the concrete triangles below: a point
is a rational pair and screen takes componentwise floors. -/
def floorScreen (p : ℚ × ℚ) : Int × Int :=
  (⌊p.1⌋, ⌊p.2⌋)

/-- Componentwise linear slope on rational pairs, the shape of the
user-installed slope for positions ((1 - t) * a + t * b per component). -/
def linPt (p q : ℚ × ℚ) (t : ℚ) : ℚ × ℚ :=
  ((1 - t) * p.1 + t * q.1, (1 - t) * p.2 + t * q.2)

/-- The sliver triangle used to exhibit the missing return in dispatch:
screen vertices (0,0), (70000,0), (35000,1); its bounding box area is
70000 > 65536, and the split bissect selects has children of areas 0 and
52500, whose sum passes the safety check. -/
def sliverTri : Tri (ℚ × ℚ) :=
  ⟨(0, 0), (70000, 0), (35000, 1)⟩

/-- First child bissect returns for sliverTri: the side point1-point2
split, whose screen bounding box is degenerate (height 0). -/
def sliverChild0 : Tri (ℚ × ℚ) :=
  ⟨(70000, 0), (52500, 1 / 2), (0, 0)⟩

/-- Second child bissect returns for sliverTri. -/
def sliverChild1 : Tri (ℚ × ℚ) :=
  ⟨(52500, 1 / 2), (35000, 1), (0, 0)⟩

theorem darea_sliver : darea floorScreen sliverTri = 70000 := by
  norm_num [darea, floorScreen, sliverTri, max_def, min_def]
  decide

theorem bissect_sliver :
    bissect linPt floorScreen sliverTri = (sliverChild0, sliverChild1) := by
  have e1 : Int.toNat 35000 % 4294967296 = 35000 := by decide
  have e2 : Int.toNat 52500 % 4294967296 = 52500 := by decide
  norm_num [bissect, bmake, darea, floorScreen, linPt, sliverTri, max_def,
    min_def, e1, e2, sliverChild0, sliverChild1]

theorem darea_sliverChild0 : darea floorScreen sliverChild0 = 0 := by
  norm_num [darea, floorScreen, sliverChild0, max_def, min_def]

theorem darea_sliverChild1 : darea floorScreen sliverChild1 = 52500 := by
  norm_num [darea, floorScreen, sliverChild1, max_def, min_def]
  decide

/-- C1 (code_bug evaluation): sliverTri has bounding box area
70000 > 65536 and its bisection passes the sum-of-children check
(0 + 52500 <= 70000), so by the claim dispatch should submit exactly the
tasks of the two children.  The code recurses on both children (each below
the threshold, hence one task each) and then, lacking a return statement,
also submits the parent: three tasks, the parent last. -/
theorem C1_dispatch_also_submits_bisected_parent :
    darea floorScreen sliverTri = 70000 ∧
    darea floorScreen sliverChild0 + darea floorScreen sliverChild1 ≤
      darea floorScreen sliverTri ∧
    dispatchList linPt floorScreen 3 sliverTri =
      [sliverChild0, sliverChild1, sliverTri] ∧
    sliverTri ∈ dispatchList linPt floorScreen 3 sliverTri := by
  have h3 : dispatchList linPt floorScreen 3 sliverTri =
      [sliverChild0, sliverChild1, sliverTri] := by
    simp only [dispatchList, darea_sliver, bissect_sliver, darea_sliverChild0,
      darea_sliverChild1]
    norm_num
  refine ⟨darea_sliver, ?_, h3, ?_⟩
  · rw [darea_sliver, darea_sliverChild0, darea_sliverChild1]
    norm_num
  · rw [h3]
    simp

/-- The axis-aligned right triangle used against C2: screen vertices
(0,0), (1000,0), (0,1000); its longest side is the hypotenuse from
(1000,0) to (0,1000). -/
def rightTri : Tri (ℚ × ℚ) :=
  ⟨(0, 0), (1000, 0), (0, 1000)⟩

/-- C2 (code_bug evaluation): on rightTri the three candidate splits have
maximum-child bounding box areas 1000000 (side point0-point1), 500000
(side point1-point2, the longest side) and 1000000 (side point2-point0).
bissect returns the point0-point1 split with maximum child area 1000000,
not the minimizing hypotenuse split with 500000: the comparison keeps the
split whose larger child is largest. -/
theorem C2_bissect_keeps_worst_split :
    bissect linPt floorScreen rightTri =
      (⟨(0, 0), (500, 0), (0, 1000)⟩, ⟨(500, 0), (1000, 0), (0, 1000)⟩) ∧
    (bmake linPt floorScreen rightTri.point0 rightTri.point1
      rightTri.point2).2.2 = 1000000 ∧
    (bmake linPt floorScreen rightTri.point1 rightTri.point2
      rightTri.point0).2.2 = 500000 ∧
    max (darea floorScreen (bissect linPt floorScreen rightTri).1)
      (darea floorScreen (bissect linPt floorScreen rightTri).2) = 1000000 := by
  have e1 : Int.toNat 500 = 500 := rfl
  have e2 : Int.toNat 1000 = 1000 := rfl
  refine ⟨?_, ?_, ?_, ?_⟩ <;>
    norm_num [bissect, bmake, darea, floorScreen, linPt, rightTri, max_def,
      min_def, e1, e2]

/-! ## Raster::rasterize (src/src/gfx.cc, lines 432-509)

The scan conversion loop, parameterized by the pipeline callbacks it
calls.  The slopes[2] array indexed by the shortside bit is embedded as a
function from Bool; its two initializers resolve so that index shortside
holds slope(a, b) and index !shortside holds slope(a, c), and the bend
update overwrites index shortside with slope(b, c), exactly as in lines
457-463 and 481.  The y loop carries y, yt, ye and the slopes array;
recursion is on fuel chosen as the number of remaining loop iterations,
with the loop condition y <= bottom checked at every entry so excess fuel
is harmless.  Painter invocations are returned as the list of
(x, y, interpolated point) arguments in call order. -/

/-- The rasterize pipeline inputs: project, screen and slope callbacks and
the (left, right, top, bottom) scissor rectangle (after the int32 casts
the loop bounds apply to its components). -/
structure RastCfg (P : Type) where
  project : P → P
  screen : P → Int × Int
  slope : P → P → ℚ → P
  scLeft : Int
  scRight : Int
  scTop : Int
  scBottom : Int

/-- The integers lo, lo+1, ..., hi (empty when hi < lo): the values taken
by the inner x loop for(x = lo; x < x1 and x <= right; ++x) once its two
upper bounds are folded into hi = min (x1 - 1) right. -/
def xSpan (lo hi : Int) : List Int :=
  (List.range (hi + 1 - lo).toNat).map (fun (i : Nat) => lo + (i : Int))

/-- One scan row at height y: pixel x runs over the span and the point
argument is produced by the x-span slope. -/
def rowOf {P : Type} (y lo hi : Int) (g : Int → P) : List (Int × Int × P) :=
  (xSpan lo hi).map (fun x => (x, y, g x))

/-- Embedding of one iteration body of the y loop (lines 484-507): the two
edge points from the short-side slope at posR and the long-side slope at
posY, their screen x coordinates, the swap making the span left-to-right,
the x-span slope, and the painter calls for x from max(x0, left) while
x < x1 and x <= right. -/
def paintRow {P : Type} (cfg : RastCfg P) (y0 y2 : Int) (shortside : Bool)
    (slopes : Bool → ℚ → P) (yt ye y : Int) : List (Int × Int × P) :=
  let posY : ℚ := ((y : ℚ) - (y0 : ℚ)) / ((y2 : ℚ) - (y0 : ℚ))
  let posR : ℚ := ((y : ℚ) - (yt : ℚ)) / ((ye : ℚ) - (yt : ℚ))
  let p0 := slopes shortside posR
  let p1 := slopes (!shortside) posY
  let x0 := (cfg.screen p0).1
  let x1 := (cfg.screen p1).1
  let sw := if x1 < x0 then (x1, x0, p1, p0) else (x0, x1, p0, p1)
  let sl := cfg.slope sw.2.2.1 sw.2.2.2
  rowOf y (max sw.1 cfg.scLeft) (min (sw.2.1 - 1) cfg.scRight)
    (fun x => sl (((x : ℚ) - (sw.1 : ℚ)) / ((sw.2.1 : ℚ) - (sw.1 : ℚ))))

/-- Embedding of the y loop of rasterize (lines 468-508).  State: fuel,
current y, the active half-range [yt, ye] and the slopes array.  At each
entry the loop condition y <= bottom is checked; then the bend test
y >= ye either breaks (when ye >= y2) or switches to the second half
(ye = y2, yt = y1, slopes[shortside] = slope(b, c)); then the row is
painted and y incremented. -/
def scanRows {P : Type} (cfg : RastCfg P) (y0 y1 y2 : Int) (b c : P)
    (shortside : Bool) :
    Nat → Int → Int → Int → (Bool → ℚ → P) → List (Int × Int × P)
  | 0, _, _, _, _ => []
  | n + 1, y, yt, ye, slopes =>
    if cfg.scBottom < y then []
    else if ye ≤ y then
      if y2 ≤ ye then []
      else
        let slopes2 := fun i => if i = shortside then cfg.slope b c else slopes i
        paintRow cfg y0 y2 shortside slopes2 y1 y2 y ++
          scanRows cfg y0 y1 y2 b c shortside n (y + 1) y1 y2 slopes2
    else
      paintRow cfg y0 y2 shortside slopes yt ye y ++
        scanRows cfg y0 y1 y2 b c shortside n (y + 1) yt ye slopes

/-- The lexicographic sort key comparison of rasterize (lines 450-452):
std::tie(y, x) ordering, as a strict greater-than test used by the three
conditional swaps. -/
def gtKey {P : Type} (u v : P × Int × Int) : Bool :=
  decide (v.2.2 < u.2.2 ∨ (u.2.2 = v.2.2 ∧ v.2.1 < u.2.1))

/-- The three conditional swaps of rasterize sorting the vertices by
increasing Y then increasing X, moving the point values in lockstep. -/
def sort3 {P : Type} (A B C : P × Int × Int) :
    (P × Int × Int) × (P × Int × Int) × (P × Int × Int) :=
  let s1 := if gtKey A B then (B, A) else (A, B)
  let s2 := if gtKey s1.2 C then (C, s1.2) else (s1.2, C)
  let s3 := if gtKey s1.1 s2.1 then (s2.1, s1.1) else (s1.1, s2.1)
  (s3.1, s3.2, s2.2)

/-- Embedding of Raster::rasterize: project the three vertices, compute
their screen coordinates, sort, compute the shortside bit and the slopes
array, and run the scan loop from max(y0, top) with fuel for every y up to
bottom. -/
def rasterList {P : Type} (cfg : RastCfg P) (t : Tri P) :
    List (Int × Int × P) :=
  let a0 := cfg.project t.point0
  let b0 := cfg.project t.point1
  let c0 := cfg.project t.point2
  let s := sort3 (a0, cfg.screen a0) (b0, cfg.screen b0) (c0, cfg.screen c0)
  let a := s.1.1
  let b := s.2.1.1
  let c := s.2.2.1
  let x0 := s.1.2.1
  let y0 := s.1.2.2
  let x1 := s.2.1.2.1
  let y1 := s.2.1.2.2
  let x2 := s.2.2.2.1
  let y2 := s.2.2.2.2
  let shortside : Bool := decide ((y1 - y0) * (x2 - x0) < (x1 - x0) * (y2 - y0))
  let slopes : Bool → ℚ → P :=
    fun i => if i = shortside then cfg.slope a b else cfg.slope a c
  scanRows cfg y0 y1 y2 b c shortside
    (cfg.scBottom + 1 - max y0 cfg.scTop).toNat (max y0 cfg.scTop) y0 y1 slopes

/-- Row-major pixel order: later painter calls have strictly larger y, or
the same y and strictly larger x. -/
def pixLt {P : Type} (u v : Int × Int × P) : Prop :=
  u.2.1 < v.2.1 ∨ (u.2.1 = v.2.1 ∧ u.1 < v.1)

/-! ### The S2 scenario (claim C4)

4 by 4 plane, depth cleared to plus infinity, painter writing red, and the
triangle with screen-space vertices (0,0), (3,0), (0,3) at constant
z = 1.0.  Points carry (x, y, z); project is the identity, screen floors
the x and y components, the slope interpolates componentwise linearly (the
position components make every quantity of the scan exact, so the rational
model agrees with the IEEE double evaluation here), and the scissor is the
full plane (0, 3, 0, 3).  Only the set of (x, y) pairs handed to the
painter is at issue; depth and color never influence it. -/

/-- Componentwise linear slope on (x, y, z) points. -/
def lin3 (p q : ℚ × ℚ × ℚ) (t : ℚ) : ℚ × ℚ × ℚ :=
  ((1 - t) * p.1 + t * q.1, (1 - t) * p.2.1 + t * q.2.1,
    (1 - t) * p.2.2 + t * q.2.2)

/-- The S2 pipeline configuration. -/
def s2cfg : RastCfg (ℚ × ℚ × ℚ) :=
  { project := id, screen := fun p => (⌊p.1⌋, ⌊p.2.1⌋), slope := lin3,
    scLeft := 0, scRight := 3, scTop := 0, scBottom := 3 }

/-- The S2 triangle: screen vertices (0,0), (3,0), (0,3), constant z = 1. -/
def s2tri : Tri (ℚ × ℚ × ℚ) :=
  ⟨(0, 0, 1), (3, 0, 1), (0, 3, 1)⟩

/-- The pixel coordinates passed to the painter in S2, in call order. -/
def s2painted : List (Int × Int) :=
  (rasterList s2cfg s2tri).map (fun e => (e.1, e.2.1))

theorem s2painted_eq :
    s2painted = [(0, 0), (1, 0), (2, 0), (0, 1), (1, 1), (0, 2)] := by
  with_unfolding_all rfl

/-- The pixel set claim C4 asserts for S2: all (x, y) with 0 <= y <= 3 and
0 <= x <= 3 - y. -/
def s2claimSet (p : Int × Int) : Prop :=
  0 ≤ p.2 ∧ p.2 ≤ 3 ∧ 0 ≤ p.1 ∧ p.1 ≤ 3 - p.2

instance (p : Int × Int) : Decidable (s2claimSet p) := by
  unfold s2claimSet
  infer_instance

/-- C4 counterexample: the pixel (3, 0) lies in the set the claim asserts
is painted (it is on the hypotenuse), yet the painter is never called on
it: the inner x loop runs with x strictly below the right edge, so the
claimed set differs from the painted set. -/
theorem C4_s2_hypotenuse_pixel_not_painted :
    s2claimSet (3, 0) ∧ ((3 : Int), (0 : Int)) ∉ s2painted ∧
    ¬ (∀ p : Int × Int, p ∈ s2painted ↔ s2claimSet p) := by
  have h := s2painted_eq
  refine ⟨by decide, ?_, ?_⟩
  · rw [h]; decide
  · intro hall
    have h3 := (hall (3, 0)).mpr (by decide)
    rw [h] at h3
    exact absurd h3 (by decide)

/-- C4 amended: in S2 the painted pixels are exactly the rows y = 0, 1, 2
with x from 0 to 2 - y inclusive, in that order; the pixels of the
hypotenuse x = 3 - y and the bottom row y = 3 are not painted, because the
x span is exclusive at its right endpoint (x < x1) and the scan loop
breaks upon reaching y2. -/
theorem C4_s2_painted_set_amended :
    s2painted = [(0, 0), (1, 0), (2, 0), (0, 1), (1, 1), (0, 2)] ∧
    ∀ p : Int × Int, p ∈ s2painted ↔
      (0 ≤ p.2 ∧ p.2 ≤ 2 ∧ 0 ≤ p.1 ∧ p.1 ≤ 2 - p.2) := by
  have h := s2painted_eq
  refine ⟨h, ?_⟩
  intro p
  rw [h]
  constructor
  · intro hp
    rcases List.mem_cons.mp hp with h1 | hp <;>
      [skip; rcases List.mem_cons.mp hp with h1 | hp] <;>
      [skip; skip; rcases List.mem_cons.mp hp with h1 | hp] <;>
      [skip; skip; skip; rcases List.mem_cons.mp hp with h1 | hp] <;>
      [skip; skip; skip; skip; rcases List.mem_cons.mp hp with h1 | hp] <;>
      [skip; skip; skip; skip; skip; rcases List.mem_cons.mp hp with h1 | hp] <;>
      first
        | (subst h1; exact ⟨by decide, by decide, by decide, by decide⟩)
        | exact absurd hp (List.not_mem_nil p)
  · intro ⟨h1, h2, h3, h4⟩
    have : p = (p.1, p.2) := rfl
    rw [this]
    interval_cases h5 : p.2 <;> interval_cases h6 : p.1 <;> decide

/-! ### Scan order (claim C7) -/

theorem xSpan_pairwise_lt (lo hi : Int) :
    (xSpan lo hi).Pairwise (· < ·) := by
  unfold xSpan
  rw [List.pairwise_map]
  refine (List.pairwise_lt_range _).imp ?_
  intro a b h
  show lo + (a : Int) < lo + (b : Int)
  omega

theorem rowOf_mem_y {P : Type} {y lo hi : Int} {g : Int → P}
    {e : Int × Int × P} (he : e ∈ rowOf y lo hi g) : e.2.1 = y := by
  unfold rowOf at he
  rcases List.mem_map.mp he with ⟨x, _, rfl⟩
  rfl

theorem rowOf_pairwise {P : Type} (y lo hi : Int) (g : Int → P) :
    (rowOf y lo hi g).Pairwise pixLt := by
  unfold rowOf
  rw [List.pairwise_map]
  exact (xSpan_pairwise_lt lo hi).imp (fun h => Or.inr ⟨rfl, h⟩)

theorem paintRow_mem_y {P : Type} {cfg : RastCfg P} {y0 y2 : Int}
    {ss : Bool} {slopes : Bool → ℚ → P} {yt ye y : Int} {e : Int × Int × P}
    (he : e ∈ paintRow cfg y0 y2 ss slopes yt ye y) : e.2.1 = y := by
  unfold paintRow at he
  exact rowOf_mem_y he

theorem paintRow_pairwise {P : Type} (cfg : RastCfg P) (y0 y2 : Int)
    (ss : Bool) (slopes : Bool → ℚ → P) (yt ye y : Int) :
    (paintRow cfg y0 y2 ss slopes yt ye y).Pairwise pixLt := by
  unfold paintRow
  exact rowOf_pairwise _ _ _ _

theorem scanRows_mem_y_le {P : Type} (cfg : RastCfg P) (y0 y1 y2 : Int)
    (b c : P) (ss : Bool) :
    ∀ (n : Nat) (y yt ye : Int) (slopes : Bool → ℚ → P)
      (e : Int × Int × P),
      e ∈ scanRows cfg y0 y1 y2 b c ss n y yt ye slopes → y ≤ e.2.1 := by
  intro n
  induction n with
  | zero => intro y yt ye slopes e he; simp [scanRows] at he
  | succ n ih =>
    intro y yt ye slopes e he
    rw [scanRows] at he
    by_cases h1 : cfg.scBottom < y
    · rw [if_pos h1] at he; simp at he
    rw [if_neg h1] at he
    by_cases h2 : ye ≤ y
    · rw [if_pos h2] at he
      by_cases h3 : y2 ≤ ye
      · rw [if_pos h3] at he; simp at he
      rw [if_neg h3] at he
      rcases List.mem_append.mp he with he | he
      · exact le_of_eq (paintRow_mem_y he).symm
      · have := ih (y + 1) y1 y2 _ e he
        omega
    · rw [if_neg h2] at he
      rcases List.mem_append.mp he with he | he
      · exact le_of_eq (paintRow_mem_y he).symm
      · have := ih (y + 1) yt ye _ e he
        omega

theorem scanRows_pairwise {P : Type} (cfg : RastCfg P) (y0 y1 y2 : Int)
    (b c : P) (ss : Bool) :
    ∀ (n : Nat) (y yt ye : Int) (slopes : Bool → ℚ → P),
      (scanRows cfg y0 y1 y2 b c ss n y yt ye slopes).Pairwise pixLt := by
  intro n
  induction n with
  | zero => intro y yt ye slopes; simp [scanRows]
  | succ n ih =>
    intro y yt ye slopes
    rw [scanRows]
    by_cases h1 : cfg.scBottom < y
    · rw [if_pos h1]; simp
    rw [if_neg h1]
    by_cases h2 : ye ≤ y
    · rw [if_pos h2]
      by_cases h3 : y2 ≤ ye
      · rw [if_pos h3]; simp
      rw [if_neg h3]
      rw [List.pairwise_append]
      refine ⟨paintRow_pairwise _ _ _ _ _ _ _ _, ih (y + 1) y1 y2 _, ?_⟩
      intro u hu v hv
      have hy_u := paintRow_mem_y hu
      have hy_v := scanRows_mem_y_le cfg y0 y1 y2 b c ss n (y + 1) y1 y2 _ v hv
      exact Or.inl (by omega)
    · rw [if_neg h2]
      rw [List.pairwise_append]
      refine ⟨paintRow_pairwise _ _ _ _ _ _ _ _, ih (y + 1) yt ye _, ?_⟩
      intro u hu v hv
      have hy_u := paintRow_mem_y hu
      have hy_v := scanRows_mem_y_le cfg y0 y1 y2 b c ss n (y + 1) yt ye _ v hv
      exact Or.inl (by omega)

/-- C7: for every point type, every pipeline configuration and every
triangle, the painter invocations of one rasterize call are in row-major
scan order: any later invocation has a strictly larger y, or the same y
and a strictly larger x — so y is non-decreasing over the call sequence
and x is strictly increasing among invocations sharing a y. -/
theorem C7_rasterize_row_major_order {P : Type} (cfg : RastCfg P)
    (t : Tri P) : (rasterList cfg t).Pairwise pixLt := by
  unfold rasterList
  exact scanRows_pairwise _ _ _ _ _ _ _ _ _ _ _ _

/-! ## Raster constructor defaults (src/src/gfx.cc, lines 569-622; claim C5)

The seven pipeline callbacks are std::function fields.  In the
constructor, six of them (transform, screen, slope, scissor, tesselation,
painter) are assigned lambdas that throw a std::runtime_error whose
message reads "raster call missing ... function" — the PipelineUnconfigured
error of the specification.  The project field is never assigned, so it
stays a default-constructed std::function, and invoking it throws
std::bad_function_call instead. -/

/-- The seven pipeline callbacks of Raster. -/
inductive RasterCallback where
  | transform
  | tesselation
  | project
  | screen
  | scissor
  | slope
  | painter
  deriving DecidableEq

/-- What invoking a callback of a freshly constructed Raster raises:
either the custom runtime error for the named callback (the
PipelineUnconfigured error kind of the specification) or the
std::bad_function_call raised by a default-constructed std::function. -/
inductive RasterCallError where
  | pipelineUnconfigured (which : RasterCallback)
  | badFunctionCall
  deriving DecidableEq

/-- Embedding of the Raster constructor: the error each callback raises
when invoked before the host installs it.  Six slots get the custom
"raster call missing ... function" lambda; project is absent from the
constructor body, so its slot raises bad_function_call. -/
def freshRasterInvoke : RasterCallback → RasterCallError
  | .transform => .pipelineUnconfigured .transform
  | .screen => .pipelineUnconfigured .screen
  | .slope => .pipelineUnconfigured .slope
  | .scissor => .pipelineUnconfigured .scissor
  | .tesselation => .pipelineUnconfigured .tesselation
  | .painter => .pipelineUnconfigured .painter
  | .project => .badFunctionCall

/-- C5 (code_bug evaluation): on a freshly constructed Raster, the
transform, tessellation, screen, scissor, slope and painter callbacks all
fail with the PipelineUnconfigured runtime error, but project — the
seventh callback of the claim — fails with std::bad_function_call, since
the constructor never installs a default for it. -/
theorem C5_project_default_is_bad_function_call :
    freshRasterInvoke .project = .badFunctionCall ∧
    freshRasterInvoke .project ≠
      .pipelineUnconfigured RasterCallback.project ∧
    freshRasterInvoke .transform = .pipelineUnconfigured .transform ∧
    freshRasterInvoke .tesselation = .pipelineUnconfigured .tesselation ∧
    freshRasterInvoke .screen = .pipelineUnconfigured .screen ∧
    freshRasterInvoke .scissor = .pipelineUnconfigured .scissor ∧
    freshRasterInvoke .slope = .pipelineUnconfigured .slope ∧
    freshRasterInvoke .painter = .pipelineUnconfigured .painter := by
  decide

end QuakeOats
